import Mathlib

/-!
Shallow embedding of the selection engine of `src/selection.rs`: the
`Selection` state machine (Simple / Semantic / Lines), its resolution
`to_span` into a `Span`, and the `Span.to_locations` extraction step.

Lines travel as signed integers (`isize` in the source) while resolved
spans hold unsigned points (`usize`); columns are unsigned everywhere.
The supporting `index` module (Point, Column, Side and their ordering
and conversions) is not part of the supplied sources, so those
primitives are modelled from the spec and marked as such.
-/

namespace Alacritty

/-- Modelled from the spec (the `index` module is not among the sources):
a grid coordinate with a `line` (signed while a gesture is live, unsigned
once resolved) and an unsigned column. -/
structure Point (α : Type) where
  line : α
  col : ℕ
  deriving DecidableEq

/-- Modelled from the spec: the natural coordinate order on points, line
first and then column. -/
def pointLt {α : Type} [LinearOrder α] (p q : Point α) : Prop :=
  p.line < q.line ∨ (p.line = q.line ∧ p.col < q.col)

instance {α : Type} [LinearOrder α] : DecidablePred fun pq : Point α × Point α => pointLt pq.1 pq.2 :=
  fun pq => by unfold pointLt; infer_instance

instance pointLtDec {α : Type} [LinearOrder α] (p q : Point α) : Decidable (pointLt p q) := by
  unfold pointLt; infer_instance

/-- Modelled from the spec: the non-strict natural coordinate order. -/
def pointLe {α : Type} [LinearOrder α] (p q : Point α) : Prop :=
  p.line < q.line ∨ (p.line = q.line ∧ p.col ≤ q.col)

instance pointLeDec {α : Type} [LinearOrder α] (p q : Point α) : Decidable (pointLe p q) := by
  unfold pointLe; infer_instance

/-- Modelled from the spec: conversion of a live (signed-line) point into a
resolved (unsigned-line) point. The spec handles out-of-range coordinates by
clamping to viewport edges (section 7), so a negative line clamps to 0. -/
def Point.toUnsigned (p : Point ℤ) : Point ℕ :=
  { line := p.line.toNat, col := p.col }

/-- Modelled from the spec: embedding of an unsigned point into the signed
coordinates a live gesture uses. -/
def Point.toSigned (p : Point ℕ) : Point ℤ :=
  { line := (p.line : ℤ), col := p.col }

/-- Modelled from the spec: which half of a cell a boundary falls on. -/
inductive Side where
  | Left
  | Right
  deriving DecidableEq

/-- A Point and side within that point (`Anchor` in the source). -/
structure Anchor where
  point : Point ℤ
  side : Side
  deriving DecidableEq

/-- How to interpret the locations of a Span (`SpanType` in the source). -/
inductive SpanType where
  | Inclusive
  | Exclusive
  | ExcludeTail
  | ExcludeFront
  deriving DecidableEq

/-- Represents a span of selected cells (`Span` in the source). -/
structure Span where
  front : Point ℕ
  tail : Point ℕ
  cols : ℕ
  ty : SpanType
  deriving DecidableEq

/-- Start and end point of a resolved selection (`Locations` in the source;
its second field is named `end` there, a reserved word here). -/
structure Locations where
  start : Point ℕ
  endp : Point ℕ
  deriving DecidableEq

/-- The selection state machine: one of three variants, each holding the
region's start and end (`Selection` in the source; `Range` start/end become
the two explicit arguments `rstart`, `rend`). -/
inductive Selection where
  | Simple (rstart rend : Anchor)
  | Semantic (rstart rend : Point ℤ)
  | Lines (rstart rend : Point ℤ) (initial_line : ℤ)
  deriving DecidableEq

/-- `Selection::simple`: both endpoints equal the click point and side. -/
def Selection.simple (location : Point ℕ) (side : Side) : Selection :=
  .Simple ⟨location.toSigned, side⟩ ⟨location.toSigned, side⟩

/-- `Selection::semantic`. -/
def Selection.semantic (point : Point ℕ) : Selection :=
  .Semantic point.toSigned point.toSigned

/-- `Selection::lines`: records `initial_line = point.line`. -/
def Selection.lines (point : Point ℕ) : Selection :=
  .Lines point.toSigned point.toSigned (point.line : ℤ)

/-- `Selection::update`: overwrites the end of the region. -/
def Selection.update (sel : Selection) (location : Point ℕ) (side : Side) : Selection :=
  match sel with
  | .Simple a _ => .Simple a ⟨location.toSigned, side⟩
  | .Semantic a _ => .Semantic a location.toSigned
  | .Lines a _ i => .Lines a location.toSigned i

/-- `Selection::rotate`: adds `offset` to every line value of the variant. -/
def Selection.rotate (sel : Selection) (offset : ℤ) : Selection :=
  match sel with
  | .Simple a b =>
      .Simple ⟨⟨a.point.line + offset, a.point.col⟩, a.side⟩
              ⟨⟨b.point.line + offset, b.point.col⟩, b.side⟩
  | .Semantic a b =>
      .Semantic ⟨a.line + offset, a.col⟩ ⟨b.line + offset, b.col⟩
  | .Lines a b i =>
      .Lines ⟨a.line + offset, a.col⟩ ⟨b.line + offset, b.col⟩ (i + offset)

/-- The anchor-ordering step of `Selection::span_simple` (source lines
310-318): swap when `start.line > end.line` or the lines are equal and
`start.col <= end.col`. -/
def Selection.simpleOrder (rstart rend : Anchor) : Anchor × Anchor :=
  if rend.point.line < rstart.point.line
      ∨ (rstart.point.line = rend.point.line ∧ rstart.point.col ≤ rend.point.col) then
    (rend, rstart)
  else
    (rstart, rend)

/-- The front adjustment of `Selection::span_simple` (source lines 329-338):
remove the last cell when the selection ends to the left of a cell, wrapping
from column 0 to the next line's last column. -/
def Selection.simpleFrontAdjust (fr : Anchor) (start endp : Point ℤ) (cols : ℕ) : Point ℤ :=
  if fr.side = Side.Left ∧ start ≠ endp then
    if fr.point.col = 0 then ⟨fr.point.line + 1, cols - 1⟩
    else ⟨fr.point.line, fr.point.col - 1⟩
  else fr.point

/-- The tail adjustment of `Selection::span_simple` (source lines 340-343):
remove the first cell when the selection starts at the right of a cell. The
source compares the already adjusted front against the tail. -/
def Selection.simpleTailAdjust (tl : Anchor) (front : Point ℤ) : Point ℤ :=
  if tl.side = Side.Right ∧ front ≠ tl.point then ⟨tl.point.line, tl.point.col + 1⟩
  else tl.point

/-- The alt-screen clamp of `Selection::span_simple` (source lines 345-349):
clamp a selection below the viewport to the visible region. -/
def Selection.simpleFrontClamp (alt_screen : Bool) (front : Point ℤ) (cols : ℕ) : Point ℤ :=
  if alt_screen ∧ front.line < 0 then ⟨0, cols - 1⟩ else front

/-- `Selection::span_simple` (source lines 300-358). -/
def Selection.span_simple (rstart rend : Anchor) (cols : ℕ) (alt_screen : Bool) :
    Option Span :=
  if ((Selection.simpleOrder rstart rend).1.point = (Selection.simpleOrder rstart rend).2.point
        ∧ (Selection.simpleOrder rstart rend).1.side = (Selection.simpleOrder rstart rend).2.side)
      ∨ ((Selection.simpleOrder rstart rend).2.side = Side.Right
          ∧ (Selection.simpleOrder rstart rend).1.side = Side.Left
          ∧ (Selection.simpleOrder rstart rend).1.point.line
              = (Selection.simpleOrder rstart rend).2.point.line
          ∧ (Selection.simpleOrder rstart rend).1.point.col
              = (Selection.simpleOrder rstart rend).2.point.col + 1)
      ∨ (Selection.simpleOrder rstart rend).2.point.line < 0 then
    none
  else
    some ⟨(Selection.simpleFrontClamp alt_screen
            (Selection.simpleFrontAdjust (Selection.simpleOrder rstart rend).1
              rstart.point rend.point cols) cols).toUnsigned,
          (Selection.simpleTailAdjust (Selection.simpleOrder rstart rend).2
            (Selection.simpleFrontAdjust (Selection.simpleOrder rstart rend).1
              rstart.point rend.point cols)).toUnsigned,
          cols, SpanType.Inclusive⟩

/-- The endpoint-ordering step of `Selection::span_semantic` (source lines
180-184): the raw region endpoints in natural coordinate order. -/
def Selection.semanticOrder (rstart rend : Point ℤ) : Point ℤ × Point ℤ :=
  if pointLt rstart rend then (rstart, rend) else (rend, rstart)

/-- Clamp a selection endpoint above the alt-screen viewport to the last
visible row (`tail.line = lines - 1; tail.col = Column(0)` in the source,
lines 193-195 and 275-277). -/
def clampAboveViewport (lines : ℕ) (p : Point ℤ) : Point ℤ :=
  if (lines : ℤ) ≤ p.line then ⟨(lines : ℤ) - 1, 0⟩ else p

/-- Clamp a selection endpoint below the alt-screen viewport to the visible
region (`front.line = 0; front.col = cols - 1` in the source, lines 204-206
and 286-288). -/
def clampBelowViewport (cols : ℕ) (p : Point ℤ) : Point ℤ :=
  if p.line < 0 then ⟨0, cols - 1⟩ else p

/-- The alt-screen clamping step of `Selection::span_semantic` (source lines
186-208) on an already ordered pair: `none` when the selection is entirely
off the fixed viewport, otherwise the pair with `tail` clamped to the last
visible row and `front` clamped to row 0, last column. The second
entirely-offscreen test reads the already clamped tail, as the source's
mutation order does. -/
def Selection.semanticClamp (alt_screen : Bool) (cols lines : ℕ)
    (ft : Point ℤ × Point ℤ) : Option (Point ℤ × Point ℤ) :=
  if alt_screen then
    if (lines : ℤ) ≤ ft.2.line ∧ (lines : ℤ) ≤ ft.1.line then
      none
    else if ft.1.line < 0 ∧ (clampAboveViewport lines ft.2).line < 0 then
      none
    else
      some (clampBelowViewport cols ft.1, clampAboveViewport lines ft.2)
  else
    some ft

/-- `Selection::span_semantic` (source lines 169-226), with the grid's
`semantic_search_left` / `semantic_search_right` passed in as the opaque
functions `fL` / `fR`. -/
def Selection.span_semantic (fL fR : Point ℕ → Point ℕ) (rstart rend : Point ℤ)
    (cols lines : ℕ) (alt_screen : Bool) : Option Span :=
  let fr0 := (Selection.semanticOrder rstart rend).1
  let tl0 := (Selection.semanticOrder rstart rend).2
  if alt_screen ∧ (lines : ℤ) ≤ tl0.line ∧ (lines : ℤ) ≤ fr0.line then
    none
  else
    let tl1 : Point ℤ :=
      if alt_screen ∧ (lines : ℤ) ≤ tl0.line then ⟨(lines : ℤ) - 1, 0⟩ else tl0
    if alt_screen ∧ fr0.line < 0 ∧ tl1.line < 0 then
      none
    else
      let fr1 : Point ℤ :=
        if alt_screen ∧ fr0.line < 0 then ⟨0, cols - 1⟩ else fr0
      let se : Point ℕ × Point ℕ :=
        if pointLt fr1 tl1 ∧ fr1.line = tl1.line then
          (fL fr1.toUnsigned, fR tl1.toUnsigned)
        else
          (fR fr1.toUnsigned, fL tl1.toUnsigned)
      let se2 : Point ℕ × Point ℕ :=
        if pointLt se.2 se.1 then (se.2, se.1) else se
      some ⟨se2.1, se2.2, cols, SpanType.Inclusive⟩

/-- The default full-width single-row range of `Selection::span_lines`
(source lines 240-255): start at the initial line's last column and end at
its column 0, the start already clamped below the alt-screen viewport. -/
def Selection.linesInit (initial_line : ℤ) (cols : ℕ) (alt_screen : Bool) :
    Point ℤ × Point ℤ :=
  (if alt_screen ∧ initial_line < 0 then ⟨0, cols - 1⟩ else ⟨initial_line, cols - 1⟩,
   ⟨initial_line, 0⟩)

/-- The row-range expansion of `Selection::span_lines` (source lines
257-266): widen the range to cover the drag region's lines, whichever way
the drag went. -/
def Selection.linesExpand (rstart rend : Point ℤ) (se : Point ℤ × Point ℤ) :
    Point ℤ × Point ℤ :=
  if rstart.line < rend.line then
    (⟨min se.1.line rstart.line, se.1.col⟩, ⟨max se.2.line rend.line, se.2.col⟩)
  else
    (⟨min se.1.line rend.line, se.1.col⟩, ⟨max se.2.line rstart.line, se.2.col⟩)

/-- The alt-screen clamping step of `Selection::span_lines` (source lines
268-290), identical in shape to the Semantic one. -/
def Selection.linesClamp (alt_screen : Bool) (cols lines : ℕ)
    (se : Point ℤ × Point ℤ) : Option (Point ℤ × Point ℤ) :=
  if alt_screen then
    if (lines : ℤ) ≤ se.2.line ∧ (lines : ℤ) ≤ se.1.line then
      none
    else if se.1.line < 0 ∧ (clampAboveViewport lines se.2).line < 0 then
      none
    else
      some (clampBelowViewport cols se.1, clampAboveViewport lines se.2)
  else
    some se

/-- `Selection::span_lines` (source lines 228-298) up to, but not
including, the final conversion of the two signed points into the
unsigned points of the emitted span. -/
def Selection.span_lines_raw (rstart rend : Point ℤ) (initial_line : ℤ)
    (cols lines : ℕ) (alt_screen : Bool) : Option (Point ℤ × Point ℤ) :=
  Selection.linesClamp alt_screen cols lines
    (Selection.linesExpand rstart rend (Selection.linesInit initial_line cols alt_screen))

/-- `Selection::span_lines` (source lines 228-298). -/
def Selection.span_lines (rstart rend : Point ℤ) (initial_line : ℤ)
    (cols lines : ℕ) (alt_screen : Bool) : Option Span :=
  (Selection.span_lines_raw rstart rend initial_line cols lines alt_screen).map
    fun se => ⟨se.1.toUnsigned, se.2.toUnsigned, cols, SpanType.Inclusive⟩

/-- `Selection::to_span` (source lines 152-167): dispatch on the variant.
The grid's capabilities are passed explicitly: the semantic searches `fL`,
`fR` and the dimensions `cols`, `lines`. -/
def Selection.to_span (sel : Selection) (fL fR : Point ℕ → Point ℕ)
    (cols lines : ℕ) (alt_screen : Bool) : Option Span :=
  match sel with
  | .Simple a b => Selection.span_simple a b cols alt_screen
  | .Semantic a b => Selection.span_semantic fL fR a b cols lines alt_screen
  | .Lines a b i => Selection.span_lines a b i cols lines alt_screen

/-- `Span::wrap_start` (source lines 410-420): advance one cell forward,
wrapping to the next line's column 0 from the last column. -/
def Span.wrap_start (start : Point ℕ) (cols : ℕ) : Point ℕ :=
  if start.col = cols - 1 then ⟨start.line + 1, 0⟩
  else ⟨start.line, start.col + 1⟩

/-- `Span::wrap_end` (source lines 422-434): retreat one cell backward;
from column 0 of a line other than 0 the source wraps to the previous
line at column `cols`. Unsigned subtraction is modelled as truncated
subtraction here; `wrap_end_checked` tracks where the source would
underflow. -/
def Span.wrap_end (endp : Point ℕ) (cols : ℕ) : Point ℕ :=
  if endp.col = 0 ∧ endp.line ≠ 0 then ⟨endp.line - 1, cols⟩
  else ⟨endp.line, endp.col - 1⟩

/-- `Span::to_locations` (source lines 397-408). -/
def Span.to_locations (sp : Span) : Locations :=
  match sp.ty with
  | SpanType.Inclusive => ⟨sp.front, sp.tail⟩
  | SpanType.Exclusive => ⟨Span.wrap_start sp.front sp.cols, Span.wrap_end sp.tail sp.cols⟩
  | SpanType.ExcludeFront => ⟨Span.wrap_start sp.front sp.cols, sp.tail⟩
  | SpanType.ExcludeTail => ⟨sp.front, Span.wrap_end sp.tail sp.cols⟩

/-- Modelled from the spec (the unsigned subtraction of the `index` module
is not among the sources): subtraction of unsigned machine integers that
reports underflow instead of truncating. -/
def checkedSub (a b : ℕ) : Option ℕ :=
  if b ≤ a then some (a - b) else none

/-- `Span::wrap_start` with every unsigned subtraction checked. -/
def Span.wrap_start_checked (start : Point ℕ) (cols : ℕ) : Option (Point ℕ) := do
  let cm1 ← checkedSub cols 1
  if start.col = cm1 then pure ⟨start.line + 1, 0⟩
  else pure ⟨start.line, start.col + 1⟩

/-- `Span::wrap_end` with every unsigned subtraction checked: the
else-branch decrements `end.col` even when it is 0. -/
def Span.wrap_end_checked (endp : Point ℕ) (cols : ℕ) : Option (Point ℕ) :=
  if endp.col = 0 ∧ endp.line ≠ 0 then do
    let lm1 ← checkedSub endp.line 1
    pure ⟨lm1, cols⟩
  else do
    let cm1 ← checkedSub endp.col 1
    pure ⟨endp.line, cm1⟩

/-- `Span::to_locations` with every unsigned subtraction checked. -/
def Span.to_locations_checked (sp : Span) : Option Locations :=
  match sp.ty with
  | SpanType.Inclusive => some ⟨sp.front, sp.tail⟩
  | SpanType.Exclusive => do
      let s ← Span.wrap_start_checked sp.front sp.cols
      let e ← Span.wrap_end_checked sp.tail sp.cols
      pure ⟨s, e⟩
  | SpanType.ExcludeFront => do
      let s ← Span.wrap_start_checked sp.front sp.cols
      pure ⟨s, sp.tail⟩
  | SpanType.ExcludeTail => do
      let e ← Span.wrap_end_checked sp.tail sp.cols
      pure ⟨sp.front, e⟩

/-- The degenerate-case test of `Selection::span_simple` (source lines
320-327) stated on the ordered anchors: a single cell with identical sides,
a front one column right of the tail on one line enclosed by a `Left` front
side and a `Right` tail side, or a tail line above the retained history. -/
def simpleDegenerate (rstart rend : Anchor) : Prop :=
  ((Selection.simpleOrder rstart rend).1.point = (Selection.simpleOrder rstart rend).2.point
    ∧ (Selection.simpleOrder rstart rend).1.side = (Selection.simpleOrder rstart rend).2.side)
  ∨ ((Selection.simpleOrder rstart rend).2.side = Side.Right
      ∧ (Selection.simpleOrder rstart rend).1.side = Side.Left
      ∧ (Selection.simpleOrder rstart rend).1.point.line
          = (Selection.simpleOrder rstart rend).2.point.line
      ∧ (Selection.simpleOrder rstart rend).1.point.col
          = (Selection.simpleOrder rstart rend).2.point.col + 1)
  ∨ (Selection.simpleOrder rstart rend).2.point.line < 0

instance (rstart rend : Anchor) : Decidable (simpleDegenerate rstart rend) := by
  unfold simpleDegenerate; infer_instance

/-- The degenerate-case test as the claim words it: its second disjunct puts
the tail, not the front, one column to the right of the other endpoint. -/
def simpleDegenerateClaimed (rstart rend : Anchor) : Prop :=
  ((Selection.simpleOrder rstart rend).1.point = (Selection.simpleOrder rstart rend).2.point
    ∧ (Selection.simpleOrder rstart rend).1.side = (Selection.simpleOrder rstart rend).2.side)
  ∨ ((Selection.simpleOrder rstart rend).2.side = Side.Right
      ∧ (Selection.simpleOrder rstart rend).1.side = Side.Left
      ∧ (Selection.simpleOrder rstart rend).1.point.line
          = (Selection.simpleOrder rstart rend).2.point.line
      ∧ (Selection.simpleOrder rstart rend).2.point.col
          = (Selection.simpleOrder rstart rend).1.point.col + 1)
  ∨ (Selection.simpleOrder rstart rend).2.point.line < 0

instance (rstart rend : Anchor) : Decidable (simpleDegenerateClaimed rstart rend) := by
  unfold simpleDegenerateClaimed; infer_instance

/-- The direction-dependent word-boundary expansion of
`Selection::span_semantic` (source lines 210-214): expand front leftward and
tail rightward exactly when the ordered pair is strictly increasing on a
single line, otherwise front rightward and tail leftward. -/
def semanticExpand (fL fR : Point ℕ → Point ℕ) (ft : Point ℤ × Point ℤ) :
    Point ℕ × Point ℕ :=
  if pointLt ft.1 ft.2 ∧ ft.1.line = ft.2.line then
    (fL ft.1.toUnsigned, fR ft.2.toUnsigned)
  else
    (fR ft.1.toUnsigned, fL ft.2.toUnsigned)

/-- The final swap of `Selection::span_semantic` (source lines 216-218):
order the expanded pair. -/
def sortPair (se : Point ℕ × Point ℕ) : Point ℕ × Point ℕ :=
  if pointLt se.2 se.1 then (se.2, se.1) else se

/-- `Span::to_locations` as the amended claim words it, with the wrap
formulas written out: advancing wraps from the last column (`cols - 1`) to
the next line's column 0; retreating from column 0 on a line other than 0
wraps to the previous line at column `cols` (one past the last column). -/
def to_locations_spec (sp : Span) : Locations :=
  match sp.ty with
  | SpanType.Inclusive => ⟨sp.front, sp.tail⟩
  | SpanType.Exclusive =>
      ⟨if sp.front.col = sp.cols - 1 then ⟨sp.front.line + 1, 0⟩
        else ⟨sp.front.line, sp.front.col + 1⟩,
       if sp.tail.col = 0 ∧ sp.tail.line ≠ 0 then ⟨sp.tail.line - 1, sp.cols⟩
        else ⟨sp.tail.line, sp.tail.col - 1⟩⟩
  | SpanType.ExcludeFront =>
      ⟨if sp.front.col = sp.cols - 1 then ⟨sp.front.line + 1, 0⟩
        else ⟨sp.front.line, sp.front.col + 1⟩,
       sp.tail⟩
  | SpanType.ExcludeTail =>
      ⟨sp.front,
       if sp.tail.col = 0 ∧ sp.tail.line ≠ 0 then ⟨sp.tail.line - 1, sp.cols⟩
        else ⟨sp.tail.line, sp.tail.col - 1⟩⟩

/-- The ordered anchors are the two given anchors, in one order or the
other. -/
theorem simpleOrder_mem (a b : Anchor) :
    Selection.simpleOrder a b = (a, b) ∨ Selection.simpleOrder a b = (b, a) := by
  unfold Selection.simpleOrder
  split
  · exact Or.inr rfl
  · exact Or.inl rfl

/-- The ordered front anchor never has a larger line than the tail anchor. -/
theorem simpleOrder_line_le (a b : Anchor) :
    (Selection.simpleOrder a b).1.point.line ≤ (Selection.simpleOrder a b).2.point.line := by
  unfold Selection.simpleOrder
  split
  · next h => dsimp only; rcases h with h | ⟨h, _⟩ <;> omega
  · next h =>
      dsimp only
      push_neg at h
      omega

/-- On a shared line, the ordered front anchor has the larger-or-equal
column. -/
theorem simpleOrder_col_ge (a b : Anchor) :
    (Selection.simpleOrder a b).1.point.line = (Selection.simpleOrder a b).2.point.line →
      (Selection.simpleOrder a b).2.point.col ≤ (Selection.simpleOrder a b).1.point.col := by
  unfold Selection.simpleOrder
  split
  · next h =>
      dsimp only
      intro hl
      rcases h with h | ⟨_, h⟩
      · omega
      · exact h
  · next h =>
      dsimp only
      intro hl
      push_neg at h
      have := h.2 hl
      omega

/-- Two points with equal components are equal. -/
theorem point_ext {α : Type} {p q : Point α} (hl : p.line = q.line) (hc : p.col = q.col) :
    p = q := by
  cases p; cases q; cases hl; cases hc; rfl

/-- Ordering anchors with distinct points keeps the points distinct. -/
theorem simpleOrder_ne_points (a b : Anchor) (hab : a.point ≠ b.point) :
    (Selection.simpleOrder a b).1.point ≠ (Selection.simpleOrder a b).2.point := by
  rcases simpleOrder_mem a b with h | h <;> rw [h]
  · simpa using hab
  · exact fun e => hab e.symm

/-- When the anchors' points differ and the ordered front sits at column 0,
the ordered front is strictly above the tail: on a shared line the front
would have the larger-or-equal column, forcing both points to coincide. -/
theorem simpleOrder_strict_of_front_col_zero (a b : Anchor)
    (hab : a.point ≠ b.point) (hc : (Selection.simpleOrder a b).1.point.col = 0) :
    (Selection.simpleOrder a b).1.point.line < (Selection.simpleOrder a b).2.point.line := by
  have hline := simpleOrder_line_le a b
  have hcol := simpleOrder_col_ge a b
  have hne := simpleOrder_ne_points a b hab
  rcases eq_or_lt_of_le hline with h | h
  · exact absurd (point_ext h (by have := hcol h; omega)) hne
  · exact h

/-- The monolithic `span_semantic` agrees with the staged description:
order the raw endpoints, clamp for the alt screen, expand by the
direction-dependent searches, sort the result into an Inclusive span. -/
theorem span_semantic_eq_staged (fL fR : Point ℕ → Point ℕ) (rstart rend : Point ℤ)
    (cols lines : ℕ) (alt_screen : Bool) :
    Selection.span_semantic fL fR rstart rend cols lines alt_screen
      = (Selection.semanticClamp alt_screen cols lines
          (Selection.semanticOrder rstart rend)).map
          (fun ft => ⟨(sortPair (semanticExpand fL fR ft)).1,
                      (sortPair (semanticExpand fL fR ft)).2,
                      cols, SpanType.Inclusive⟩) := by
  cases alt_screen
  · rfl
  · simp only [Selection.span_semantic, Selection.semanticClamp, clampAboveViewport,
      clampBelowViewport, eq_self_iff_true, true_and, if_true]
    by_cases h1 : ((lines : ℤ) ≤ (Selection.semanticOrder rstart rend).2.line
        ∧ (lines : ℤ) ≤ (Selection.semanticOrder rstart rend).1.line)
    · rw [if_pos h1, if_pos h1]
      rfl
    · rw [if_neg h1, if_neg h1]
      by_cases h2 : ((Selection.semanticOrder rstart rend).1.line < 0
          ∧ (if (lines : ℤ) ≤ (Selection.semanticOrder rstart rend).2.line
              then (⟨(lines : ℤ) - 1, 0⟩ : Point ℤ)
              else (Selection.semanticOrder rstart rend).2).line < 0)
      · rw [if_pos h2, if_pos h2]
        rfl
      · rw [if_neg h2, if_neg h2]
        rfl

/-- A sorted pair of unsigned points is non-decreasing on lines. -/
theorem sortPair_line_le (se : Point ℕ × Point ℕ) :
    (sortPair se).1.line ≤ (sortPair se).2.line := by
  unfold sortPair pointLt
  split_ifs with h
  · dsimp only
    rcases h with h | ⟨h, _⟩ <;> omega
  · push_neg at h
    exact h.1

/-- The adjusted front never drops below the ordered tail's line: the wrap
from column 0 moves one line toward the tail only when the front was
strictly above it. -/
theorem simpleFrontAdjust_line_le (a b : Anchor) (cols : ℕ) :
    (Selection.simpleFrontAdjust (Selection.simpleOrder a b).1 a.point b.point cols).line
      ≤ (Selection.simpleOrder a b).2.point.line := by
  unfold Selection.simpleFrontAdjust
  split_ifs with c1 c2
  · have hst := simpleOrder_strict_of_front_col_zero a b c1.2 c2
    dsimp only
    omega
  · have hle := simpleOrder_line_le a b
    try dsimp only
    omega
  · exact simpleOrder_line_le a b

/-- Every span resolved from a Simple selection has its front on a
line at or before its tail's line. -/
theorem span_simple_some_front_le (rstart rend : Anchor) (cols : ℕ) (alt_screen : Bool)
    (sp : Span) (h : Selection.span_simple rstart rend cols alt_screen = some sp) :
    sp.front.line ≤ sp.tail.line := by
  unfold Selection.span_simple at h
  split at h
  · exact Option.noConfusion h
  · next hnd =>
      have h0 : (0 : ℤ) ≤ (Selection.simpleOrder rstart rend).2.point.line := by
        by_contra hx
        push_neg at hx
        exact hnd (Or.inr (Or.inr hx))
      have hfa := simpleFrontAdjust_line_le rstart rend cols
      injection h with h
      subst h
      simp only [Selection.simpleFrontClamp, Selection.simpleTailAdjust, Point.toUnsigned]
      split_ifs <;> (try dsimp only) <;> omega

/-- Every span resolved from a Semantic selection has its front on a
line at or before its tail's line: the final sort guarantees it. -/
theorem span_semantic_some_front_le (fL fR : Point ℕ → Point ℕ) (rstart rend : Point ℤ)
    (cols lines : ℕ) (alt_screen : Bool) (sp : Span)
    (h : Selection.span_semantic fL fR rstart rend cols lines alt_screen = some sp) :
    sp.front.line ≤ sp.tail.line := by
  rw [span_semantic_eq_staged] at h
  rcases hm : Selection.semanticClamp alt_screen cols lines
      (Selection.semanticOrder rstart rend) with _ | ft
  · rw [hm] at h; exact Option.noConfusion h
  · rw [hm] at h
    simp only [Option.map_some', Option.some.injEq] at h
    subst h
    exact sortPair_line_le _

/-- The row-range expansion keeps the start line at or before the end line
and leaves both columns unchanged: the expanded bounds enclose the drag
region's smaller and larger line. -/
theorem linesExpand_props (rstart rend : Point ℤ) (se : Point ℤ × Point ℤ) :
    (Selection.linesExpand rstart rend se).1.line ≤ (Selection.linesExpand rstart rend se).2.line
    ∧ (Selection.linesExpand rstart rend se).1.col = se.1.col
    ∧ (Selection.linesExpand rstart rend se).2.col = se.2.col := by
  unfold Selection.linesExpand
  split_ifs <;> exact ⟨by dsimp only; omega, rfl, rfl⟩

/-- The Lines alt-screen clamp preserves the line ordering and the
full-row columns of its input whenever it yields a pair. -/
theorem linesClamp_props (cols lines : ℕ) (alt_screen : Bool) (se out : Point ℤ × Point ℤ)
    (hline : se.1.line ≤ se.2.line) (hc1 : se.1.col = cols - 1) (hc2 : se.2.col = 0)
    (h : Selection.linesClamp alt_screen cols lines se = some out) :
    out.1.line ≤ out.2.line ∧ out.1.col = cols - 1 ∧ out.2.col = 0 := by
  unfold Selection.linesClamp clampAboveViewport clampBelowViewport at h
  split_ifs at h <;>
    first
      | exact Option.noConfusion h
      | (injection h with h
         subst h
         try dsimp only at *
         exact ⟨by omega, by omega, by omega⟩)

/-- The raw Lines resolution keeps its start line at or before its end
line and always spans full rows: start at the last column, end at
column 0. -/
theorem span_lines_raw_props (rstart rend : Point ℤ) (initial_line : ℤ)
    (cols lines : ℕ) (alt_screen : Bool) (se : Point ℤ × Point ℤ)
    (h : Selection.span_lines_raw rstart rend initial_line cols lines alt_screen = some se) :
    se.1.line ≤ se.2.line ∧ se.1.col = cols - 1 ∧ se.2.col = 0 := by
  unfold Selection.span_lines_raw at h
  have he := linesExpand_props rstart rend (Selection.linesInit initial_line cols alt_screen)
  have hi1 : (Selection.linesInit initial_line cols alt_screen).1.col = cols - 1 := by
    unfold Selection.linesInit
    split_ifs <;> rfl
  have hi2 : (Selection.linesInit initial_line cols alt_screen).2.col = 0 := rfl
  exact linesClamp_props cols lines alt_screen _ se he.1 (he.2.1.trans hi1)
    (he.2.2.trans hi2) h

/-- Every span resolved from a Lines selection has its front on a line at
or before its tail's line. -/
theorem span_lines_some_front_le (rstart rend : Point ℤ) (initial_line : ℤ)
    (cols lines : ℕ) (alt_screen : Bool) (sp : Span)
    (h : Selection.span_lines rstart rend initial_line cols lines alt_screen = some sp) :
    sp.front.line ≤ sp.tail.line := by
  unfold Selection.span_lines at h
  rcases hm : Selection.span_lines_raw rstart rend initial_line cols lines alt_screen
      with _ | se
  · rw [hm] at h; exact Option.noConfusion h
  · rw [hm] at h
    simp only [Option.map_some', Option.some.injEq] at h
    subst h
    have hp := (span_lines_raw_props rstart rend initial_line cols lines alt_screen se hm).1
    simp only [Point.toUnsigned]
    omega

/-- C2 counterexample: ordering the Simple anchors (line 0, col 0, Right)
and (line 1, col 1, Left) makes the line-0 anchor the front, not the
anchor with the larger line number as the claim states. -/
theorem simple_order_front_smaller_line_cx :
    (Selection.simpleOrder ⟨⟨0, 0⟩, Side.Right⟩ ⟨⟨1, 1⟩, Side.Left⟩).1
        = ⟨⟨0, 0⟩, Side.Right⟩
    ∧ (⟨⟨0, 0⟩, Side.Right⟩ : Anchor).point.line + 1 = (⟨⟨1, 1⟩, Side.Left⟩ : Anchor).point.line
    ∧ (Selection.simpleOrder ⟨⟨0, 0⟩, Side.Right⟩ ⟨⟨1, 1⟩, Side.Left⟩).1
        ≠ ⟨⟨1, 1⟩, Side.Left⟩ := by
  refine ⟨by decide, by decide, by decide⟩

/-- When the two anchors' points tie on both line and column, the swap
condition `start.col <= end.col` holds with equality, so the region's end
anchor becomes front. -/
theorem simpleOrder_swap_of_eq (a b : Anchor) (h : a.point = b.point) :
    Selection.simpleOrder a b = (b, a) := by
  unfold Selection.simpleOrder
  rw [h, if_pos (Or.inr ⟨rfl, le_refl _⟩)]

/-- C2 amended: `to_span` orders the two Simple anchors so that the anchor
with the smaller line number becomes front; when the lines are equal the
anchor with the larger-or-equal column becomes front, a tie on both line
and column going to the region's end anchor; the other anchor becomes
tail, each keeping its own side. -/
theorem simple_order_characterization (a b : Anchor) :
    (Selection.simpleOrder a b).1.point.line ≤ (Selection.simpleOrder a b).2.point.line
    ∧ ((Selection.simpleOrder a b).1.point.line = (Selection.simpleOrder a b).2.point.line →
        (Selection.simpleOrder a b).2.point.col ≤ (Selection.simpleOrder a b).1.point.col)
    ∧ (Selection.simpleOrder a b = (a, b) ∨ Selection.simpleOrder a b = (b, a))
    ∧ (a.point = b.point → Selection.simpleOrder a b = (b, a)) :=
  ⟨simpleOrder_line_le a b, simpleOrder_col_ge a b, simpleOrder_mem a b,
    simpleOrder_swap_of_eq a b⟩

/-- C3 counterexample: the Simple selection from (line 0, col 0, Right) to
(line 0, col 1, Left) resolves to `none`, yet none of the claim's three
conditions holds there: after ordering it is the front, not the tail, that
sits one column to the right. -/
theorem simple_none_adjacent_cx :
    Selection.span_simple ⟨⟨0, 0⟩, Side.Right⟩ ⟨⟨0, 1⟩, Side.Left⟩ 2 false = none
    ∧ ¬ simpleDegenerateClaimed ⟨⟨0, 0⟩, Side.Right⟩ ⟨⟨0, 1⟩, Side.Left⟩ := by
  exact ⟨by decide, by decide⟩

/-- C3 amended: for every Simple selection and geometry, `to_span` is `none`
exactly when, after anchor ordering, the two anchors coincide with equal
sides, or the front is exactly one column right of the tail on the same
line with front side Left and tail side Right, or the tail line is
negative; in particular the claim's two concrete adjacent-cell selections
resolve to `none` on a 1-row, 2-column grid. -/
theorem span_simple_none_iff :
    (∀ (rstart rend : Anchor) (cols : ℕ) (alt_screen : Bool),
        Selection.span_simple rstart rend cols alt_screen = none
          ↔ simpleDegenerate rstart rend)
    ∧ Selection.span_simple ⟨⟨0, 0⟩, Side.Right⟩ ⟨⟨0, 1⟩, Side.Left⟩ 2 false = none
    ∧ Selection.span_simple ⟨⟨0, 1⟩, Side.Left⟩ ⟨⟨0, 0⟩, Side.Right⟩ 2 false = none := by
  refine ⟨fun rstart rend cols alt_screen => ?_, by decide, by decide⟩
  unfold Selection.span_simple simpleDegenerate
  split
  · next h => simpa using h
  · next h => simpa using h

/-- C5 counterexample: on a 2-column span, an Exclusive tail at (line 1,
col 0) retreats to (line 0, col 2) — column `cols`, not the last column
`cols - 1` the claim states. -/
theorem to_locations_wrap_end_cx :
    (Span.to_locations ⟨⟨0, 0⟩, ⟨1, 0⟩, 2, SpanType.Exclusive⟩).endp = ⟨0, 2⟩
    ∧ ((⟨0, 2⟩ : Point ℕ) ≠ ⟨0, 2 - 1⟩) := by
  exact ⟨rfl, by decide⟩

/-- C5 amended: for every Span, `to_locations` advances an excluded front
one cell forward (wrapping from the last column to the next line's column
0) and retreats an excluded tail one cell backward, wrapping from column 0
of a line other than 0 to the previous line at column `cols` — one past
the last column; ExcludeFront and ExcludeTail apply only their one-sided
adjustment and Inclusive is the identity. -/
theorem to_locations_formula (sp : Span) : sp.to_locations = to_locations_spec sp := by
  obtain ⟨f, t, c, ty⟩ := sp
  cases ty <;> rfl

/-- C6: evaluating `to_locations` on a Span whose tail is at line 0,
column 0 with an Exclusive type reaches the unguarded `tail.col - 1`
with `tail.col = 0`: an unsigned underflow, so the checked evaluation has
no result. -/
theorem to_locations_checked_underflow :
    Span.to_locations_checked ⟨⟨0, 0⟩, ⟨0, 0⟩, 2, SpanType.Exclusive⟩ = none := by
  decide

/-- C8: rotating any selection by an offset and then by its negation
restores the original selection exactly. -/
theorem rotate_rotate_neg (sel : Selection) (offset : ℤ) :
    (sel.rotate offset).rotate (-offset) = sel := by
  cases sel <;> simp [Selection.rotate]

/-- C9: a Simple selection created at (0,0) with one side and updated to
(0,0) with the other side resolves, on any geometry and either screen
mode, to the inclusive span whose front and tail are both (0,0). -/
theorem single_cell_closure (fL fR : Point ℕ → Point ℕ) (cols lines : ℕ) (alt_screen : Bool) :
    ((Selection.simple ⟨0, 0⟩ Side.Left).update ⟨0, 0⟩ Side.Right).to_span fL fR cols lines alt_screen
        = some ⟨⟨0, 0⟩, ⟨0, 0⟩, cols, SpanType.Inclusive⟩
    ∧ ((Selection.simple ⟨0, 0⟩ Side.Right).update ⟨0, 0⟩ Side.Left).to_span fL fR cols lines alt_screen
        = some ⟨⟨0, 0⟩, ⟨0, 0⟩, cols, SpanType.Inclusive⟩ := by
  cases alt_screen <;> exact ⟨rfl, rfl⟩

/-- C10: on the primary screen (alt_screen = false) a Semantic or Lines
selection always resolves to a span, whatever the region, the geometry and
the semantic searches. -/
theorem semantic_lines_some_primary_screen (fL fR : Point ℕ → Point ℕ)
    (rstart rend : Point ℤ) (initial_line : ℤ) (cols lines : ℕ) :
    (Selection.span_semantic fL fR rstart rend cols lines false).isSome = true
    ∧ (Selection.span_lines rstart rend initial_line cols lines false).isSome = true := by
  constructor
  · simp [Selection.span_semantic]
  · simp [Selection.span_lines, Selection.span_lines_raw, Selection.linesClamp]

/-- C1: for every Semantic selection, after ordering the raw region
endpoints and applying the alt-screen clamping, `to_span` expands the front
by `semantic_search_left` and the tail by `semantic_search_right` exactly
when front < tail and they share a line, and in every other case expands
the front by `semantic_search_right` and the tail by `semantic_search_left`;
the expanded pair is swapped when out of order and emitted as an Inclusive
span. -/
theorem semantic_expansion_asymmetry (fL fR : Point ℕ → Point ℕ) (rstart rend : Point ℤ)
    (cols lines : ℕ) (alt_screen : Bool) (f t : Point ℤ)
    (h : Selection.semanticClamp alt_screen cols lines (Selection.semanticOrder rstart rend)
        = some (f, t)) :
    Selection.span_semantic fL fR rstart rend cols lines alt_screen
      = some ⟨(sortPair (if pointLt f t ∧ f.line = t.line
                  then (fL f.toUnsigned, fR t.toUnsigned)
                  else (fR f.toUnsigned, fL t.toUnsigned))).1,
              (sortPair (if pointLt f t ∧ f.line = t.line
                  then (fL f.toUnsigned, fR t.toUnsigned)
                  else (fR f.toUnsigned, fL t.toUnsigned))).2,
              cols, SpanType.Inclusive⟩ := by
  rw [span_semantic_eq_staged, h]
  rfl

/-- C1 witness: the forward single-line semantic drag from (0,0) to (0,1)
on a 2 by 2 primary-screen grid, with identity searches. -/
theorem semantic_expansion_asymmetry_witness :
    Selection.span_semantic id id ⟨0, 0⟩ ⟨0, 1⟩ 2 2 false
      = some ⟨⟨0, 0⟩, ⟨0, 1⟩, 2, SpanType.Inclusive⟩ := by
  have h := semantic_expansion_asymmetry id id ⟨0, 0⟩ ⟨0, 1⟩ 2 2 false ⟨0, 0⟩ ⟨0, 1⟩
    (by decide)
  exact h.trans (by decide)

/-- C4 counterexample: a Lines selection of the single row 0 on a 1-row,
2-column primary-screen grid resolves to a span whose front (0,1) is
strictly after its tail (0,0) in the natural line-then-column order. -/
theorem span_front_le_tail_cx :
    (Selection.Lines ⟨0, 0⟩ ⟨0, 0⟩ 0).to_span id id 2 1 false
        = some ⟨⟨0, 1⟩, ⟨0, 0⟩, 2, SpanType.Inclusive⟩
    ∧ ¬ pointLe (⟨0, 1⟩ : Point ℕ) ⟨0, 0⟩ := by
  exact ⟨by decide, by decide⟩

/-- C4 amended: every span resolved by `to_span` from any selection, any
geometry and either screen mode satisfies front.line ≤ tail.line; the full
line-then-column order on the pair can fail on the shared line, where a
Simple or Lines span's front column may exceed its tail column. -/
theorem to_span_front_line_le_tail_line (sel : Selection) (fL fR : Point ℕ → Point ℕ)
    (cols lines : ℕ) (alt_screen : Bool) (sp : Span)
    (h : sel.to_span fL fR cols lines alt_screen = some sp) :
    sp.front.line ≤ sp.tail.line := by
  cases sel with
  | Simple a b => exact span_simple_some_front_le a b cols alt_screen sp h
  | Semantic a b => exact span_semantic_some_front_le fL fR a b cols lines alt_screen sp h
  | Lines a b i => exact span_lines_some_front_le a b i cols lines alt_screen sp h

/-- C4 amended, witness: the Lines span of row 0 on a 1-row, 2-column grid
keeps front.line ≤ tail.line. -/
theorem to_span_front_line_le_tail_line_witness :
    (Selection.Lines ⟨0, 0⟩ ⟨0, 0⟩ 0).to_span id id 2 1 false
        = some ⟨⟨0, 1⟩, ⟨0, 0⟩, 2, SpanType.Inclusive⟩
    ∧ (⟨⟨0, 1⟩, ⟨0, 0⟩, 2, SpanType.Inclusive⟩ : Span).front.line
        ≤ (⟨⟨0, 1⟩, ⟨0, 0⟩, 2, SpanType.Inclusive⟩ : Span).tail.line := by
  constructor
  · decide
  · exact to_span_front_line_le_tail_line (Selection.Lines ⟨0, 0⟩ ⟨0, 0⟩ 0) id id 2 1 false
      ⟨⟨0, 1⟩, ⟨0, 0⟩, 2, SpanType.Inclusive⟩ (by decide)

/-- C7 counterexample: under alt-screen clamping, the Lines selection with
initial_line = -1 dragged into rows -1..1 of a 3-row viewport resolves to
the row range 0..1, which does not contain initial_line. -/
theorem span_lines_initial_line_cx :
    (Selection.Lines ⟨-1, 0⟩ ⟨1, 0⟩ (-1)).to_span id id 2 3 true
        = some ⟨⟨0, 1⟩, ⟨1, 0⟩, 2, SpanType.Inclusive⟩
    ∧ Selection.span_lines_raw ⟨-1, 0⟩ ⟨1, 0⟩ (-1) 2 3 true = some (⟨0, 1⟩, ⟨1, 0⟩)
    ∧ ¬ ((0 : ℤ) ≤ -1 ∧ (-1 : ℤ) ≤ 1) := by
  exact ⟨by decide, by decide, by decide⟩

/-- C7 amended: a span resolved from a Lines selection always has its
front at the last column and its tail at column 0; and on the primary
screen (alt_screen = false) the resolved signed row range always contains
initial_line and every line between the region's two endpoints; under
alt-screen clamping the range can lose initial_line. -/
theorem span_lines_coverage :
    (∀ (rstart rend : Point ℤ) (initial_line : ℤ) (cols lines : ℕ) (alt_screen : Bool)
        (sp : Span),
        Selection.span_lines rstart rend initial_line cols lines alt_screen = some sp →
          sp.front.col = cols - 1 ∧ sp.tail.col = 0)
    ∧ (∀ (rstart rend : Point ℤ) (initial_line : ℤ) (cols lines : ℕ)
        (se : Point ℤ × Point ℤ),
        Selection.span_lines_raw rstart rend initial_line cols lines false = some se →
          se.1.line ≤ initial_line ∧ initial_line ≤ se.2.line
          ∧ se.1.line ≤ min rstart.line rend.line
          ∧ max rstart.line rend.line ≤ se.2.line) := by
  constructor
  · intro rstart rend initial_line cols lines alt_screen sp h
    unfold Selection.span_lines at h
    rcases hm : Selection.span_lines_raw rstart rend initial_line cols lines alt_screen
        with _ | se
    · rw [hm] at h
      exact Option.noConfusion h
    · rw [hm] at h
      simp only [Option.map_some', Option.some.injEq] at h
      subst h
      have hp := span_lines_raw_props rstart rend initial_line cols lines alt_screen se hm
      exact ⟨hp.2.1, hp.2.2⟩
  · intro rstart rend initial_line cols lines se h
    have h2 : some (Selection.linesExpand rstart rend
        (⟨initial_line, cols - 1⟩, ⟨initial_line, 0⟩)) = some se := h
    injection h2 with h2
    subst h2
    unfold Selection.linesExpand
    split_ifs <;> (try dsimp only) <;> exact ⟨by omega, by omega, by omega, by omega⟩

end Alacritty
